import Mathlib

/-!
Shallow embedding of the time-series reconstruction and aggregation pipeline
of the gs_monitor dashboard (src/dashboard.py, lines 54-210) together with the
persistence guard of src/db_utils.py (insert_member_count).

Timestamps are modelled as integers counting minutes since an arbitrary epoch;
a calendar day is a block of 1440 consecutive minutes, so `dayOf` matches
pandas `dt.date`, `midnight` matches `dt.normalize()` and the left bin edge of
`resample('D')`.  Member counts loaded from the database are integers (the
`member_stats.member_count` column is `INTEGER NOT NULL`); interpolated counts
are rationals.
-/

namespace GSMonitor

/-- Length of one calendar day in model time units (minutes). -/
def dayLen : ℤ := 1440

/-- Calendar day of an instant (floor division, as pandas `dt.date`;
integer division by the positive `dayLen` rounds toward minus infinity). -/
def dayOf (t : ℤ) : ℤ := t / dayLen

/-- Midnight instant of a calendar day (pandas `dt.normalize`, and the
timestamp that `resample('D')` assigns to a daily bin). -/
def midnight (d : ℤ) : ℤ := d * dayLen

/-- A row of the reconstructed series: dashboard.py keeps columns
`timestamp`, `member_count`, `is_interpolated`. -/
structure Point where
  timestamp : ℤ
  member_count : ℚ
  is_interpolated : Bool
deriving DecidableEq, Repr

/-- A database row as returned by `get_all_member_stats`:
(timestamp, member_count), the count an integer. -/
abbrev Row := ℤ × ℤ

/-- Timestamp order on points (dashboard.py sorts with
`sort_values(by=COL_TIMESTAMP)`). -/
def tsLe (p q : Point) : Prop := p.timestamp ≤ q.timestamp

instance : DecidableRel tsLe := fun p q => Int.decLe p.timestamp q.timestamp

instance : IsTotal Point tsLe := ⟨fun p q => Int.le_total p.timestamp q.timestamp⟩

instance : IsTrans Point tsLe := ⟨fun _ _ _ h h' => le_trans h h'⟩

/-- Stable sort of points by timestamp (dashboard.py lines 30 and 78). -/
def sortByTimestamp (l : List Point) : List Point := List.insertionSort tsLe l

/-- dashboard.py lines 28-30 and 58-59: the loaded rows, sorted by timestamp,
with `is_interpolated = False`. -/
def df_original (rows : List Row) : List Point :=
  sortByTimestamp (rows.map (fun r => ⟨r.1, (r.2 : ℚ), false⟩))

/-- The calendar days of all rows (with multiplicity). -/
def dayList (rows : List Row) : List ℤ := rows.map (fun r => dayOf r.1)

/-- First observed calendar day (day of the minimum timestamp; the first bin
of `resample('D')`).  Sentinel 0 on the empty log, which the pipeline guard
never reaches. -/
def minDay (rows : List Row) : ℤ :=
  match dayList rows with
  | [] => 0
  | d :: ds => ds.foldl min d

/-- Last observed calendar day (day of the maximum timestamp). -/
def maxDay (rows : List Row) : ℤ :=
  match dayList rows with
  | [] => 0
  | d :: ds => ds.foldl max d

/-- Number of daily bins produced by `resample('D')`. -/
def numDays (rows : List Row) : ℕ := (maxDay rows - minDay rows + 1).toNat

/-- The rows falling on a given calendar day. -/
def observedOn (rows : List Row) (d : ℤ) : List Row :=
  rows.filter (fun r => dayOf r.1 = d)

/-- dashboard.py line 63, `resample('D').mean()` at one bin: the mean of the
day's counts, or missing (NaN) for an empty bin. -/
def dayMean (rows : List Row) (d : ℤ) : Option ℚ :=
  let xs := observedOn rows d
  if xs.isEmpty then none
  else some ((xs.map (fun r => (r.2 : ℚ))).sum / (xs.length : ℚ))

/-- dashboard.py line 63, `df_resampled`: the daily backbone, one optional
mean per day from `minDay` to `maxDay` inclusive. -/
def df_resampled (rows : List Row) : List (Option ℚ) :=
  (List.range (numDays rows)).map (fun (k : ℕ) => dayMean rows (minDay rows + (k : ℤ)))

/-- Index of the nearest defined entry at or below position `i`
(the left neighbor used by `interpolate(method='linear')`). -/
def prevDefined (v : List (Option ℚ)) : ℕ → Option (ℕ × ℚ)
  | 0 => match v.get? 0 with
         | some (some x) => some (0, x)
         | _ => none
  | i + 1 => match v.get? (i + 1) with
             | some (some x) => some (i + 1, x)
             | _ => prevDefined v i

/-- Scan upward from position `i` for the first defined entry, with fuel. -/
def nextDefinedAux (v : List (Option ℚ)) : ℕ → ℕ → Option (ℕ × ℚ)
  | _, 0 => none
  | i, fuel + 1 => match v.get? i with
                   | some (some x) => some (i, x)
                   | some none => nextDefinedAux v (i + 1) fuel
                   | none => none

/-- Index of the nearest defined entry at or above position `i`
(the right neighbor used by `interpolate(method='linear')`). -/
def nextDefined (v : List (Option ℚ)) (i : ℕ) : Option (ℕ × ℚ) :=
  nextDefinedAux v i (v.length - i)

/-- dashboard.py line 64, `interpolate(method='linear')` at one position:
defined entries are kept; a missing entry strictly between two defined
entries is filled linearly by position (positions are consecutive days, so
this is interpolation indexed by elapsed calendar days); a missing entry
after the last defined one is filled with the last defined value (pandas
default `limit_direction='forward'`); leading missing entries stay missing. -/
def interpAt (v : List (Option ℚ)) (i : ℕ) : Option ℚ :=
  match v.get? i with
  | some (some x) => some x
  | some none =>
      match prevDefined v i, nextDefined v i with
      | some (j, vj), some (k, vk) =>
          some (vj + (vk - vj) * ((i : ℚ) - (j : ℚ)) / ((k : ℚ) - (j : ℚ)))
      | some (_, vj), none => some vj
      | _, _ => none
  | none => none

/-- dashboard.py lines 64-66, `df_interpolated_backbone` as a function of the
bin index. -/
def backboneVal (rows : List Row) (k : ℕ) : Option ℚ :=
  interpAt (df_resampled rows) k

/-- Whether a calendar day carries at least one observation
(membership in `original_dates`, dashboard.py line 68). -/
def isObserved (rows : List Row) (d : ℤ) : Bool :=
  rows.any (fun r => dayOf r.1 = d)

/-- One backbone row surviving the `~isin(original_dates)` filter of
dashboard.py lines 70-73: a purely interpolated point at midnight of its
day, tagged `is_interpolated = True`; `none` for observed days. -/
def backbonePoint (rows : List Row) (k : ℕ) : Option Point :=
  let d := minDay rows + (k : ℤ)
  if isObserved rows d then none
  else (backboneVal rows k).map (fun v => ⟨midnight d, v, true⟩)

/-- dashboard.py lines 70-74, `df_purely_interpolated_points`. -/
def df_purely_interpolated_points (rows : List Row) : List Point :=
  (List.range (numDays rows)).filterMap (backbonePoint rows)

/-- Floor of a rational, written out computably: integer division of the
numerator by the (positive) denominator rounds toward minus infinity. -/
def qfloor (q : ℚ) : ℤ := q.num / (q.den : ℤ)

/-- numpy/pandas `round()`: round half to even. -/
def roundHalfEven (q : ℚ) : ℤ :=
  if q - (qfloor q : ℚ) < 1 / 2 then qfloor q
  else if 1 / 2 < q - (qfloor q : ℚ) then qfloor q + 1
  else if qfloor q % 2 = 0 then qfloor q else qfloor q + 1

/-- dashboard.py line 80 applied to one row:
`round().astype(int)` on the member_count column. -/
def roundCount (p : Point) : Point :=
  ⟨p.timestamp, (roundHalfEven p.member_count : ℚ), p.is_interpolated⟩

/-- dashboard.py lines 76-82: concatenate the original points with the purely
interpolated ones, sort by timestamp, coerce to numeric (a no-op on the
integer-count rows modelled here) and round the counts to integers.  The
result replaces `data_df`.  The surrounding `if not data_df.empty` guard of
line 55 is the emptiness test. -/
def data_df (rows : List Row) : List Point :=
  if rows.isEmpty then []
  else (sortByTimestamp (df_original rows ++ df_purely_interpolated_points rows)).map roundCount

/-- Distinct calendar days of a point list
(`data_df[COL_TIMESTAMP].dt.date.unique()`, dashboard.py line 94). -/
def distinctDays (l : List Point) : List ℤ :=
  (l.map (fun p => dayOf p.timestamp)).dedup

/-- dashboard.py line 107 membership predicate:
`start_datetime <= timestamp < end_datetime` with
`end_datetime = end_date + 1 day`. -/
def inRange (s e : ℤ) (p : Point) : Bool :=
  decide (midnight s ≤ p.timestamp) && decide (p.timestamp < midnight e + dayLen)

/-- dashboard.py lines 101-107: the range filter itself.  `none` models the
`InvalidRange` branch (error message plus empty frame) taken exactly when
`start_date > end_date`; otherwise the points inside the half-open window
are retained. -/
def dateFilterChecked (l : List Point) (s e : ℤ) : Option (List Point) :=
  if e < s then none else some (l.filter (inRange s e))

/-- dashboard.py lines 94-110: the filter is applied only when the data
spans more than one distinct calendar day; on the invalid-range branch the
displayed frame is empty. -/
def filtered_df (l : List Point) (s e : ℤ) : List Point :=
  if 1 < (distinctDays l).length then (dateFilterChecked l s e).getD [] else l

/-- One row of `daily_summary_agg` (dashboard.py lines 123-131). -/
structure Summary where
  date : ℤ
  last_member_count : ℚ
  is_last_interpolated : Bool
  net_daily_change : ℚ
deriving DecidableEq, Repr

/-- The points of a list falling on a given calendar day, in list order. -/
def onDay (l : List Point) (d : ℤ) : List Point :=
  l.filter (fun p => dayOf p.timestamp = d)

/-- `groupby('date').agg(last)` for one day: the chronologically last point
of the day in the timestamp-sorted frame. -/
def lastOnDay (l : List Point) (d : ℤ) : Option Point :=
  (onDay l d).getLast?

/-- The day's closing member count (`last_member_count`). -/
def closeOn (l : List Point) (d : ℤ) : ℚ :=
  ((lastOnDay l d).map (fun p => p.member_count)).getD 0

/-- The day's closing interpolation flag (`is_last_interpolated`). -/
def interpOn (l : List Point) (d : ℤ) : Bool :=
  ((lastOnDay l d).map (fun p => p.is_interpolated)).getD false

/-- Order on days used to sort the grouped summary (dashboard.py line 129). -/
def intLe (a b : ℤ) : Prop := a ≤ b

instance : DecidableRel intLe := fun a b => Int.decLe a b

instance : IsTotal ℤ intLe := ⟨fun a b => Int.le_total a b⟩

instance : IsTrans ℤ intLe := ⟨fun _ _ _ h h' => le_trans h h'⟩

/-- The distinct days of the series, sorted ascending: the index of
`daily_summary_agg` after `groupby('date')` and the sort of line 129. -/
def sortedDays (l : List Point) : List ℤ :=
  List.insertionSort intLe (distinctDays l)

/-- dashboard.py line 131 on the non-first rows: each day carries
`net_daily_change = round(close(d) - close(previous present day))`
(`diff().round()`); the accumulator is the previous day's closing value. -/
def summariesGo (l : List Point) : ℚ → List ℤ → List Summary
  | _, [] => []
  | prev, d :: ds =>
      ⟨d, closeOn l d, interpOn l d, (roundHalfEven (closeOn l d - prev) : ℚ)⟩ ::
        summariesGo l (closeOn l d) ds

/-- dashboard.py lines 119-131, `daily_summary_agg`: group the unfiltered
series by day, take last count and last flag per day, sort by day, and take
first differences of the closing counts (`fillna(0)` makes the first day's
change 0). -/
def daily_summary_agg (l : List Point) : List Summary :=
  match sortedDays l with
  | [] => []
  | d :: ds => ⟨d, closeOn l d, interpOn l d, 0⟩ :: summariesGo l (closeOn l d) ds

/-- A row of the merged display frame (dashboard.py lines 134-140):
the filtered point columns plus the day's summary columns. -/
structure OutRow where
  timestamp : ℤ
  member_count : ℚ
  is_interpolated : Bool
  net_daily_change : ℚ
  is_last_interpolated : Bool
deriving DecidableEq, Repr

/-- The left merge of one filtered point with `summary_to_merge` on the
normalized date key; absent days default to change 0 and flag false
(dashboard.py lines 136-140). -/
def mergeRow (ss : List Summary) (p : Point) : OutRow :=
  match ss.find? (fun s => decide (s.date = dayOf p.timestamp)) with
  | some s => ⟨p.timestamp, p.member_count, p.is_interpolated,
               s.net_daily_change, s.is_last_interpolated⟩
  | none => ⟨p.timestamp, p.member_count, p.is_interpolated, 0, false⟩

/-- The displayed frame: filtered points carrying their day's summary
columns, with the summary computed from the unfiltered `data_df`. -/
def outputRows (rows : List Row) (s e : ℤ) : List OutRow :=
  (filtered_df (data_df rows) s e).map (mergeRow (daily_summary_agg (data_df rows)))

/-- The net daily change the summary attaches to a day. -/
def netOfDay (l : List Point) (d : ℤ) : Option ℚ :=
  ((daily_summary_agg l).find? (fun s => decide (s.date = d))).map
    (fun s => s.net_daily_change)

/-- dashboard.py line 166: `filtered_df[COL_MEMBER_COUNT].iloc[0]`. -/
def initial_count (l : List Point) : Option ℚ :=
  l.head?.map (fun p => p.member_count)

/-- dashboard.py line 144: `filtered_df[COL_MEMBER_COUNT].iloc[-1]`. -/
def latest_count (l : List Point) : Option ℚ :=
  l.getLast?.map (fun p => p.member_count)

/-- dashboard.py lines 166-168: total growth percentage over the filtered
window, 0 when the initial count is 0 (the guard avoids dividing by zero). -/
def growth_percentage (l : List Point) : ℚ :=
  match initial_count l, latest_count l with
  | some i, some z => if i ≠ 0 then (z - i) / i * 100 else 0
  | _, _ => 0

/-- dashboard.py line 193 (and the identical line 210):
`member_count.round().astype(int)` on the output frame. -/
def df_for_csv (l : List OutRow) : List OutRow :=
  l.map (fun r => ⟨r.timestamp, (roundHalfEven r.member_count : ℚ),
                   r.is_interpolated, r.net_daily_change, r.is_last_interpolated⟩)

/-- The reconstruction pipeline as the spec words it (section 6 rounding
contract): identical to `data_df` except that counts stay real-valued, with
rounding deferred to the output-formatting step.  Used only to compare the
code's behaviour against the spec's once-at-output rounding claim. -/
def data_df_specRounding (rows : List Row) : List Point :=
  if rows.isEmpty then []
  else sortByTimestamp (df_original rows ++ df_purely_interpolated_points rows)

/-! ### The pipeline on rows whose count may be missing.

`db_utils.py` stores integer counts and `insert_member_count` refuses a
`None` count, but claim C8 is about source rows whose count is non-numeric
or missing.  After the `pd.to_numeric(errors='coerce')` coercion such a
count is NaN; we model a coerced count as `Option ℚ` with `none` for
NaN/missing and replay the same dashboard.py lines on these rows. -/

/-- A point whose count may be missing (NaN). -/
structure PointN where
  timestamp : ℤ
  member_count : Option ℚ
  is_interpolated : Bool
deriving DecidableEq, Repr

/-- A source row whose count may be non-numeric or missing: after coercion
the count is either an integer or a missing marker. -/
abbrev RowN := ℤ × Option ℤ

/-- Timestamp order on possibly-missing points. -/
def tsLeN (p q : PointN) : Prop := p.timestamp ≤ q.timestamp

instance : DecidableRel tsLeN := fun p q => Int.decLe p.timestamp q.timestamp

/-- Stable sort of possibly-missing points by timestamp. -/
def sortByTimestampN (l : List PointN) : List PointN := List.insertionSort tsLeN l

/-- The loaded frame: one point per source row, missing counts kept as
missing markers, `is_interpolated = False`. -/
def df_originalN (rows : List RowN) : List PointN :=
  sortByTimestampN (rows.map (fun r => ⟨r.1, r.2.map (fun n => (n : ℚ)), false⟩))

/-- The calendar days of all rows, present or missing count alike
(`dt.date` never looks at the count). -/
def dayListN (rows : List RowN) : List ℤ := rows.map (fun r => dayOf r.1)

/-- First calendar day of the log with possibly-missing counts. -/
def minDayN (rows : List RowN) : ℤ :=
  match dayListN rows with
  | [] => 0
  | d :: ds => ds.foldl min d

/-- Last calendar day of the log with possibly-missing counts. -/
def maxDayN (rows : List RowN) : ℤ :=
  match dayListN rows with
  | [] => 0
  | d :: ds => ds.foldl max d

/-- Number of daily bins. -/
def numDaysN (rows : List RowN) : ℕ := (maxDayN rows - minDayN rows + 1).toNat

/-- The present (numeric) counts observed on a day: `mean()` skips NaN. -/
def presentCountsOn (rows : List RowN) (d : ℤ) : List ℚ :=
  (rows.filter (fun r => dayOf r.1 = d)).filterMap (fun r => r.2.map (fun n => (n : ℚ)))

/-- `resample('D').mean()` with NaN skipping: the mean of the present
counts of the day, NaN when the day has no present count. -/
def dayMeanN (rows : List RowN) (d : ℤ) : Option ℚ :=
  let xs := presentCountsOn rows d
  if xs.isEmpty then none else some (xs.sum / (xs.length : ℚ))

/-- The daily backbone of the possibly-missing log. -/
def df_resampledN (rows : List RowN) : List (Option ℚ) :=
  (List.range (numDaysN rows)).map (fun (k : ℕ) => dayMeanN rows (minDayN rows + (k : ℤ)))

/-- Whether a day carries at least one source row (`original_dates`
membership; rows with missing counts still have dates). -/
def isObservedN (rows : List RowN) (d : ℤ) : Bool :=
  rows.any (fun r => dayOf r.1 = d)

/-- One purely interpolated backbone row of the possibly-missing log. -/
def backbonePointN (rows : List RowN) (k : ℕ) : Option PointN :=
  let d := minDayN rows + (k : ℤ)
  if isObservedN rows d then none
  else (interpAt (df_resampledN rows) k).map (fun v => ⟨midnight d, some v, true⟩)

/-- `df_purely_interpolated_points` of the possibly-missing log. -/
def df_purely_interpolated_pointsN (rows : List RowN) : List PointN :=
  (List.range (numDaysN rows)).filterMap (backbonePointN rows)

/-- dashboard.py line 76-79 on the possibly-missing log: concatenation,
sort, `to_numeric(errors='coerce')` (already reflected in the `Option`
counts). -/
def df_combinedN (rows : List RowN) : List PointN :=
  sortByTimestampN (df_originalN rows ++ df_purely_interpolated_pointsN rows)

/-- dashboard.py line 80, `round().astype(int)`: converting a NaN count to
integer raises, so the whole step fails (`none`) as soon as any count is
missing; otherwise every count is rounded. -/
def castCounts : List PointN → Option (List Point)
  | [] => some []
  | p :: ps =>
      match p.member_count with
      | none => none
      | some c => (castCounts ps).map
          (fun qs => ⟨p.timestamp, (roundHalfEven c : ℚ), p.is_interpolated⟩ :: qs)

/-- The reconstructed series of the possibly-missing log: `none` models the
run aborting in the `astype(int)` call of dashboard.py line 80. -/
def data_dfN (rows : List RowN) : Option (List Point) :=
  if rows.isEmpty then some [] else castCounts (df_combinedN rows)

/-- db_utils.py lines 52-68, `insert_member_count`, modelled on an
append-only log of integer counts: a missing (`None`) count is skipped with
result `False`; a present count is appended with result `True`. -/
def insert_member_count (log : List ℤ) (c : Option ℤ) : List ℤ × Bool :=
  match c with
  | none => (log, false)
  | some n => (log ++ [n], true)

/-- A rational that is an integer. -/
def IsIntValued (q : ℚ) : Prop := ∃ n : ℤ, q = (n : ℚ)

/-! ### Basic helper lemmas -/

lemma dayLen_pos : (0 : ℤ) < dayLen := by norm_num [dayLen]

lemma dayOf_midnight (d : ℤ) : dayOf (midnight d) = d := by
  simp [dayOf, midnight, Int.mul_ediv_cancel _ (by norm_num [dayLen] : dayLen ≠ 0)]

lemma midnight_le (t : ℤ) : midnight (dayOf t) ≤ t := by
  simpa [midnight, dayOf, mul_comm] using Int.ediv_mul_le t (by norm_num [dayLen] : dayLen ≠ 0)

lemma lt_midnight_succ (t : ℤ) : t < midnight (dayOf t + 1) := by
  have := Int.emod_lt_of_pos t dayLen_pos
  have heq := Int.ediv_add_emod t dayLen
  simp only [midnight, dayOf]
  nlinarith [heq, this]

lemma dayOf_mono {t u : ℤ} (h : t ≤ u) : dayOf t ≤ dayOf u :=
  Int.ediv_le_ediv dayLen_pos h

lemma dayOf_eq_iff {t : ℤ} {d : ℤ} : dayOf t = d ↔ midnight d ≤ t ∧ t < midnight (d + 1) := by
  constructor
  · rintro rfl
    exact ⟨midnight_le t, lt_midnight_succ t⟩
  · rintro ⟨h1, h2⟩
    have hlo : d ≤ dayOf t := by
      have := dayOf_mono h1
      simpa [dayOf_midnight] using this
    have hhi : dayOf t < d + 1 := by
      by_contra hcon
      push_neg at hcon
      have : midnight (d + 1) ≤ midnight (dayOf t) := by
        simp only [midnight]
        exact mul_le_mul_of_nonneg_right hcon (le_of_lt dayLen_pos)
      exact absurd (lt_of_lt_of_le h2 (le_trans this (midnight_le t))) (lt_irrefl t)
    omega

lemma qfloor_intCast (n : ℤ) : qfloor (n : ℚ) = n := by
  simp [qfloor, Rat.intCast_num, Rat.intCast_den]

lemma roundHalfEven_intCast (n : ℤ) : roundHalfEven (n : ℚ) = n := by
  simp only [roundHalfEven, qfloor_intCast, sub_self]
  norm_num

lemma roundCount_isIntValued (p : Point) : IsIntValued (roundCount p).member_count :=
  ⟨roundHalfEven p.member_count, rfl⟩

lemma roundCount_timestamp (p : Point) : (roundCount p).timestamp = p.timestamp := rfl

lemma roundCount_flag (p : Point) : (roundCount p).is_interpolated = p.is_interpolated := rfl

lemma roundCount_intCast (t : ℤ) (n : ℤ) (b : Bool) :
    roundCount ⟨t, (n : ℚ), b⟩ = ⟨t, (n : ℚ), b⟩ := by
  simp [roundCount, roundHalfEven_intCast]

/-! ### Sorting helper lemmas -/

lemma perm_sortByTimestamp (l : List Point) : List.Perm (sortByTimestamp l) l :=
  List.perm_insertionSort tsLe l

lemma mem_sortByTimestamp {p : Point} {l : List Point} :
    p ∈ sortByTimestamp l ↔ p ∈ l :=
  (perm_sortByTimestamp l).mem_iff

lemma sorted_sortByTimestamp (l : List Point) : List.Sorted tsLe (sortByTimestamp l) :=
  List.sorted_insertionSort tsLe l

/-! ### Fold min/max helper lemmas -/

lemma foldl_min_le_init (l : List ℤ) (a : ℤ) : l.foldl min a ≤ a := by
  induction l generalizing a with
  | nil => simp
  | cons x xs ih => exact le_trans (ih (min a x)) (min_le_left a x)

lemma foldl_min_le_mem (l : List ℤ) : ∀ a x : ℤ, x ∈ l → l.foldl min a ≤ x := by
  induction l with
  | nil => intro a x hx; simp at hx
  | cons y ys ih =>
    intro a x hx
    rcases List.mem_cons.mp hx with rfl | hmem
    · exact le_trans (foldl_min_le_init ys (min a x)) (min_le_right a x)
    · exact ih (min a y) x hmem

lemma foldl_min_attained (l : List ℤ) : ∀ a : ℤ, l.foldl min a = a ∨ l.foldl min a ∈ l := by
  induction l with
  | nil => intro a; left; rfl
  | cons y ys ih =>
    intro a
    rcases ih (min a y) with h | h
    · rcases le_total a y with hay | hya
      · left; simp only [List.foldl_cons]; rw [h, min_eq_left hay]
      · right
        simp only [List.foldl_cons]
        rw [h, min_eq_right hya]
        exact List.mem_cons_self y ys
    · right; exact List.mem_cons_of_mem y h

lemma le_foldl_max_init (l : List ℤ) (a : ℤ) : a ≤ l.foldl max a := by
  induction l generalizing a with
  | nil => simp
  | cons x xs ih => exact le_trans (le_max_left a x) (ih (max a x))

lemma mem_le_foldl_max (l : List ℤ) : ∀ a x : ℤ, x ∈ l → x ≤ l.foldl max a := by
  induction l with
  | nil => intro a x hx; simp at hx
  | cons y ys ih =>
    intro a x hx
    rcases List.mem_cons.mp hx with rfl | hmem
    · exact le_trans (le_max_right a x) (le_foldl_max_init ys (max a x))
    · exact ih (max a y) x hmem

lemma foldl_max_attained (l : List ℤ) : ∀ a : ℤ, l.foldl max a = a ∨ l.foldl max a ∈ l := by
  induction l with
  | nil => intro a; left; rfl
  | cons y ys ih =>
    intro a
    rcases ih (max a y) with h | h
    · rcases le_total y a with hya | hay
      · left; simp only [List.foldl_cons]; rw [h, max_eq_left hya]
      · right
        simp only [List.foldl_cons]
        rw [h, max_eq_right hay]
        exact List.mem_cons_self y ys
    · right; exact List.mem_cons_of_mem y h

/-! ### min/max day lemmas -/

lemma minDay_eq_foldl {rows : List Row} {d : ℤ} {ds : List ℤ}
    (hd : dayList rows = d :: ds) : minDay rows = ds.foldl min d := by
  unfold minDay
  rw [hd]

lemma maxDay_eq_foldl {rows : List Row} {d : ℤ} {ds : List ℤ}
    (hd : dayList rows = d :: ds) : maxDay rows = ds.foldl max d := by
  unfold maxDay
  rw [hd]

lemma dayList_ne_nil {rows : List Row} (h : rows ≠ []) : dayList rows ≠ [] := by
  simpa [dayList] using h

lemma mem_dayList {rows : List Row} {x : ℤ} (hx : x ∈ dayList rows) :
    ∃ r ∈ rows, dayOf r.1 = x := by
  rcases List.mem_map.mp hx with ⟨r, hr, hrx⟩
  exact ⟨r, hr, hrx⟩

lemma minDay_le {rows : List Row} {r : Row} (hr : r ∈ rows) : minDay rows ≤ dayOf r.1 := by
  have hmem : dayOf r.1 ∈ dayList rows := List.mem_map_of_mem _ hr
  rcases hd : dayList rows with _ | ⟨d, ds⟩
  · rw [hd] at hmem; simp at hmem
  · rw [minDay_eq_foldl hd]
    rw [hd] at hmem
    rcases List.mem_cons.mp hmem with h | h
    · rw [← h]; exact foldl_min_le_init ds _
    · exact foldl_min_le_mem ds d _ h

lemma le_maxDay {rows : List Row} {r : Row} (hr : r ∈ rows) : dayOf r.1 ≤ maxDay rows := by
  have hmem : dayOf r.1 ∈ dayList rows := List.mem_map_of_mem _ hr
  rcases hd : dayList rows with _ | ⟨d, ds⟩
  · rw [hd] at hmem; simp at hmem
  · rw [maxDay_eq_foldl hd]
    rw [hd] at hmem
    rcases List.mem_cons.mp hmem with h | h
    · rw [← h]; exact le_foldl_max_init ds _
    · exact mem_le_foldl_max ds d _ h

lemma minDay_attained {rows : List Row} (h : rows ≠ []) :
    ∃ r ∈ rows, dayOf r.1 = minDay rows := by
  rcases hd : dayList rows with _ | ⟨d, ds⟩
  · exact absurd hd (dayList_ne_nil h)
  · rw [minDay_eq_foldl hd]
    rcases foldl_min_attained ds d with heq | hmem
    · rw [heq]
      exact mem_dayList (by rw [hd]; exact List.mem_cons_self d ds)
    · exact mem_dayList (by rw [hd]; exact List.mem_cons_of_mem d hmem)

lemma maxDay_attained {rows : List Row} (h : rows ≠ []) :
    ∃ r ∈ rows, dayOf r.1 = maxDay rows := by
  rcases hd : dayList rows with _ | ⟨d, ds⟩
  · exact absurd hd (dayList_ne_nil h)
  · rw [maxDay_eq_foldl hd]
    rcases foldl_max_attained ds d with heq | hmem
    · rw [heq]
      exact mem_dayList (by rw [hd]; exact List.mem_cons_self d ds)
    · exact mem_dayList (by rw [hd]; exact List.mem_cons_of_mem d hmem)

lemma minDay_le_maxDay {rows : List Row} (h : rows ≠ []) : minDay rows ≤ maxDay rows := by
  rcases minDay_attained h with ⟨r, hr, hrd⟩
  rw [← hrd]
  exact le_maxDay hr


/-! ### Claim C6: the date-range filter -/

lemma midnight_add_one (e : ℤ) : midnight e + dayLen = midnight (e + 1) := by
  simp only [midnight]
  ring

lemma inRange_iff {s e : ℤ} {p : Point} :
    inRange s e p = true ↔ midnight s ≤ p.timestamp ∧ p.timestamp < midnight (e + 1) := by
  rw [← midnight_add_one]
  simp [inRange]

/-- C6: when a date range [start_date, end_date] of inclusive calendar dates
is supplied, the filter retains exactly the points with
start_date ≤ timestamp < end_date + 1 day (the end bound is exclusive), and
the operation fails with InvalidRange (producing no data rather than
proceeding) exactly when start_date > end_date. -/
theorem C6_range_filter (l : List Point) (s e : ℤ) :
    (dateFilterChecked l s e = none ↔ s > e) ∧
    (∀ fl, dateFilterChecked l s e = some fl →
      ∀ p : Point, p ∈ fl ↔
        p ∈ l ∧ midnight s ≤ p.timestamp ∧ p.timestamp < midnight (e + 1)) := by
  constructor
  · by_cases h : e < s
    · simp [dateFilterChecked, h]
    · simp [dateFilterChecked, h]
  · intro fl hfl p
    by_cases h : e < s
    · simp [dateFilterChecked, h] at hfl
    · simp [dateFilterChecked, h] at hfl
      subst hfl
      simp only [List.mem_filter, inRange_iff, and_assoc]

/-- Witness for C6 at a concrete point and range. -/
theorem C6_range_filter_witness :
    ((⟨720, (5 : ℚ), false⟩ : Point) ∈ [(⟨720, (5 : ℚ), false⟩ : Point)].filter (inRange 0 1)) ↔
      ((⟨720, (5 : ℚ), false⟩ : Point) ∈ [(⟨720, (5 : ℚ), false⟩ : Point)] ∧
        midnight 0 ≤ 720 ∧ (720 : ℤ) < midnight (1 + 1)) :=
  (C6_range_filter [⟨720, 5, false⟩] 0 1).2 _ rfl _

/-! ### Claim C7: growth percentage -/

/-- C7: growth_percentage equals (latest - initial)/initial*100 whenever the
first filtered point's count is nonzero, and equals 0 when the initial count
is 0; the zero case is resolved by a guard, not by a division error. -/
theorem C7_growth_percentage (l : List Point) (i z : ℚ)
    (hi : initial_count l = some i) (hz : latest_count l = some z) :
    (i ≠ 0 → growth_percentage l = (z - i) / i * 100) ∧
    (i = 0 → growth_percentage l = 0) := by
  unfold growth_percentage
  rw [hi, hz]
  constructor
  · intro h
    simp [h]
  · intro h
    simp [h]

/-- Witness for C7: a filtered series starting at count 0 yields growth
percentage 0. -/
theorem C7_growth_percentage_witness :
    growth_percentage [(⟨0, (0 : ℚ), false⟩ : Point), ⟨1440, (50 : ℚ), false⟩] = 0 :=
  (C7_growth_percentage [⟨0, (0 : ℚ), false⟩, ⟨1440, (50 : ℚ), false⟩] 0 50 rfl rfl).2 rfl

/-! ### Claim C9: single-day data bypasses the filter -/

lemma all_eq_of_dedup_le_one {xs : List ℤ} (h : xs.dedup.length ≤ 1) :
    ∀ x ∈ xs, ∀ y ∈ xs, x = y := by
  intro x hx y hy
  have hx' := List.mem_dedup.mpr hx
  have hy' := List.mem_dedup.mpr hy
  cases hd : xs.dedup with
  | nil =>
    rw [hd] at hx'
    simp at hx'
  | cons a as =>
    rw [hd] at hx' hy' h
    have has : as = [] := by
      have : as.length = 0 := by
        simpa using h
      exact List.length_eq_zero.mp this
    subst has
    simp at hx' hy'
    rw [hx', hy']

lemma nodup_all_eq_length_le_one {α : Type} {xs : List α} {d : α} (hnd : xs.Nodup)
    (h : ∀ x ∈ xs, x = d) : xs.length ≤ 1 := by
  cases xs with
  | nil => simp
  | cons a as =>
    cases as with
    | nil => simp
    | cons b bs =>
      exfalso
      have hab : a ≠ b := by
        have := List.nodup_cons.mp hnd
        exact fun hc => this.1 (hc ▸ List.mem_cons_self b bs)
      exact hab ((h a (by simp)).trans (h b (by simp)).symm)

lemma dedup_const_le_one (xs : List ℤ) (d : ℤ) (h : ∀ x ∈ xs, x = d) :
    xs.dedup.length ≤ 1 :=
  nodup_all_eq_length_le_one (List.nodup_dedup xs)
    (fun x hx => h x (List.mem_dedup.mp hx))

lemma data_df_mem_struct {rows : List Row} {p : Point} (hp : p ∈ data_df rows) :
    ∃ q, (q ∈ df_original rows ∨ q ∈ df_purely_interpolated_points rows) ∧
      p = roundCount q := by
  unfold data_df at hp
  by_cases hr : rows.isEmpty
  · rw [if_pos hr] at hp
    simp at hp
  · rw [if_neg hr] at hp
    rcases List.mem_map.mp hp with ⟨q, hq, hpq⟩
    exact ⟨q, by simpa [List.mem_append] using mem_sortByTimestamp.mp hq, hpq.symm⟩

lemma df_original_mem {rows : List Row} {q : Point} (hq : q ∈ df_original rows) :
    ∃ r ∈ rows, q = ⟨r.1, (r.2 : ℚ), false⟩ := by
  unfold df_original at hq
  rcases List.mem_map.mp (mem_sortByTimestamp.mp hq) with ⟨r, hr, hrq⟩
  exact ⟨r, hr, hrq.symm⟩

lemma purely_interpolated_mem {rows : List Row} {q : Point}
    (hq : q ∈ df_purely_interpolated_points rows) :
    ∃ k ∈ List.range (numDays rows), backbonePoint rows k = some q := by
  unfold df_purely_interpolated_points at hq
  exact List.mem_filterMap.mp hq

lemma backbonePoint_some {rows : List Row} {k : ℕ} {q : Point}
    (h : backbonePoint rows k = some q) :
    isObserved rows (minDay rows + (k : ℤ)) = false ∧
    q.timestamp = midnight (minDay rows + (k : ℤ)) ∧ q.is_interpolated = true ∧
    ∃ v, interpAt (df_resampled rows) k = some v ∧ q.member_count = v := by
  unfold backbonePoint at h
  by_cases hobs : isObserved rows (minDay rows + (k : ℤ))
  · rw [if_pos hobs] at h
    cases h
  · rw [if_neg hobs] at h
    rcases Option.map_eq_some'.mp h with ⟨v, hv, hq⟩
    refine ⟨by simpa using hobs, ?_, ?_, v, hv, ?_⟩ <;> rw [← hq]

lemma single_day_no_interpolated {rows : List Row}
    (hne : ¬rows.isEmpty) (h1 : (dayList rows).dedup.length ≤ 1) :
    df_purely_interpolated_points rows = [] := by
  have hnil : rows ≠ [] := by
    intro hc
    rw [hc] at hne
    simp at hne
  have hmm : minDay rows = maxDay rows := by
    rcases minDay_attained hnil with ⟨r1, hr1, hd1⟩
    rcases maxDay_attained hnil with ⟨r2, hr2, hd2⟩
    rw [← hd1, ← hd2]
    exact all_eq_of_dedup_le_one h1 _ (List.mem_map_of_mem _ hr1) _
      (List.mem_map_of_mem _ hr2)
  have hnum : numDays rows = 1 := by
    unfold numDays
    rw [hmm]
    simp
  unfold df_purely_interpolated_points
  rw [hnum]
  have : backbonePoint rows 0 = none := by
    unfold backbonePoint
    have hist : isObserved rows (minDay rows) = true := by
      rcases minDay_attained hnil with ⟨r, hr, hd⟩
      unfold isObserved
      rw [List.any_eq_true]
      exact ⟨r, hr, by simp [hd]⟩
    simp [hist]
  simp [List.range_succ, this]

lemma distinctDays_data_df_le_one {rows : List Row}
    (h : (dayList rows).dedup.length ≤ 1) :
    (distinctDays (data_df rows)).length ≤ 1 := by
  by_cases hne : rows.isEmpty
  · unfold data_df
    rw [if_pos hne]
    simp [distinctDays]
  · rcases hrows : rows with _ | ⟨r0, rest⟩
    · rw [hrows] at hne
      simp at hne
    · rw [← hrows]
      have hr0 : r0 ∈ rows := by
        rw [hrows]
        exact List.mem_cons_self r0 rest
      apply dedup_const_le_one _ (dayOf r0.1)
      intro x hx
      rcases List.mem_map.mp hx with ⟨p, hp, hxp⟩
      rcases data_df_mem_struct hp with ⟨q, hq | hq, hpq⟩
      · rcases df_original_mem hq with ⟨r, hr, hqr⟩
        rw [← hxp, hpq, hqr]
        exact all_eq_of_dedup_le_one h _ (List.mem_map_of_mem _ hr) _
          (List.mem_map_of_mem _ hr0)
      · rw [single_day_no_interpolated hne h] at hq
        simp at hq

/-- C9: if the loaded data contains observations on at most one distinct
calendar day, the date-range filter is bypassed entirely: the full series is
used unfiltered, no range validation occurs, and this holds for every
configured range, including an inverted one. -/
theorem C9_filter_bypassed (rows : List Row)
    (h : (dayList rows).dedup.length ≤ 1) (s e : ℤ) :
    filtered_df (data_df rows) s e = data_df rows := by
  unfold filtered_df
  rw [if_neg]
  intro hc
  exact absurd (distinctDays_data_df_le_one h) (by omega)

/-- Witness for C9: a one-observation log with an inverted configured range
(start 3 after end 1) is passed through unfiltered with no InvalidRange
failure. -/
theorem C9_filter_bypassed_witness :
    filtered_df (data_df [((0 : ℤ), (5 : ℤ))]) 3 1 = data_df [((0 : ℤ), (5 : ℤ))] :=
  C9_filter_bypassed _ (by decide) 3 1

/-! ### Claim C1: where rounding happens -/

/-- C1 counterexample: for the log [(day 0, 100), (day 3, 102)] the pipeline
stores day 1 as the already-rounded 101 (not the real interpolated value
302/3) before any output formatting, and the day-2 net change it reports is
0, while deriving the change from real-valued closings and rounding once at
output yields 1.  Counts are therefore not kept real-valued through
daily-change derivation: they are rounded during reconstruction and the
daily change is re-derived from already-rounded values. -/
theorem C1_rounding_counterexample :
    netOfDay (data_df [((0 : ℤ), (100 : ℤ)), (4320, 102)]) 2 = some 0 ∧
    closeOn (data_df [((0 : ℤ), (100 : ℤ)), (4320, 102)]) 1 = 101 ∧
    closeOn (data_df_specRounding [((0 : ℤ), (100 : ℤ)), (4320, 102)]) 1 = 302 / 3 ∧
    (roundHalfEven (closeOn (data_df_specRounding [((0 : ℤ), (100 : ℤ)), (4320, 102)]) 2
      - closeOn (data_df_specRounding [((0 : ℤ), (100 : ℤ)), (4320, 102)]) 1) : ℚ) = 1 := by
  norm_num [data_df, data_df_specRounding, df_original, sortByTimestamp, tsLe,
    df_purely_interpolated_points, numDays, minDay, maxDay, dayList, dayOf, dayLen,
    backbonePoint, isObserved, backboneVal, df_resampled, interpAt, dayMean, observedOn,
    prevDefined, nextDefined, nextDefinedAux, midnight, roundCount, roundHalfEven, qfloor,
    netOfDay, daily_summary_agg, sortedDays, distinctDays, summariesGo, closeOn, interpOn,
    lastOnDay, onDay, intLe, List.range_succ, min_def, max_def]

lemma map_eq_self_of_mem {α : Type} {f : α → α} :
    ∀ l : List α, (∀ x ∈ l, f x = x) → l.map f = l
  | [], _ => rfl
  | x :: xs, h => by
    simp only [List.map_cons]
    rw [h x (List.mem_cons_self x xs),
      map_eq_self_of_mem xs (fun y hy => h y (List.mem_cons_of_mem x hy))]

lemma data_df_isIntValued {rows : List Row} {p : Point} (hp : p ∈ data_df rows) :
    IsIntValued p.member_count := by
  rcases data_df_mem_struct hp with ⟨q, _, hpq⟩
  rw [hpq]
  exact roundCount_isIntValued q

lemma filtered_df_subset {l : List Point} {s e : ℤ} {p : Point}
    (hp : p ∈ filtered_df l s e) : p ∈ l := by
  unfold filtered_df at hp
  by_cases h1 : 1 < (distinctDays l).length
  · rw [if_pos h1] at hp
    unfold dateFilterChecked at hp
    by_cases h2 : e < s
    · rw [if_pos h2] at hp
      simp at hp
    · rw [if_neg h2] at hp
      simp only [Option.getD_some] at hp
      exact (List.mem_filter.mp hp).1
  · rwa [if_neg h1] at hp

lemma mergeRow_member_count (ss : List Summary) (p : Point) :
    (mergeRow ss p).member_count = p.member_count := by
  unfold mergeRow
  cases ss.find? (fun s => decide (s.date = dayOf p.timestamp)) <;> rfl

/-- C1 amended: counts are rounded (half to even) to integers exactly once
inside the pipeline, at the end of reconstruction (dashboard.py line 80,
immediately after combining original and interpolated points); every stored
count is therefore already integral, the later derivations (daily change,
moving averages, growth statistics) consume these already-rounded counts,
and the re-rounding at the CSV-export/table-display step is the identity on
the output rows. -/
theorem C1_amended (rows : List Row) (s e : ℤ) :
    (∀ p ∈ data_df rows, IsIntValued p.member_count) ∧
    df_for_csv (outputRows rows s e) = outputRows rows s e := by
  refine ⟨fun p hp => data_df_isIntValued hp, ?_⟩
  unfold df_for_csv
  apply map_eq_self_of_mem
  intro r hr
  rcases List.mem_map.mp hr with ⟨p, hpmem, hpr⟩
  have hpc : IsIntValued p.member_count :=
    data_df_isIntValued (filtered_df_subset hpmem)
  have hrc : r.member_count = p.member_count := by
    rw [← hpr]
    exact mergeRow_member_count _ p
  rcases hpc with ⟨n, hn⟩
  cases r
  simp only at hrc
  simp [hrc, hn, roundHalfEven_intCast]

/-- Witness for the amended C1 at a concrete log and range. -/
theorem C1_amended_witness :
    df_for_csv (outputRows [((0 : ℤ), (100 : ℤ)), (4320, 102)] 0 3) =
      outputRows [((0 : ℤ), (100 : ℤ)), (4320, 102)] 0 3 :=
  (C1_amended [((0 : ℤ), (100 : ℤ)), (4320, 102)] 0 3).2


/-! ### Claim C8: malformed (missing) counts -/

lemma mem_sortByTimestampN {p : PointN} {l : List PointN} :
    p ∈ sortByTimestampN l ↔ p ∈ l :=
  (List.perm_insertionSort tsLeN l).mem_iff

lemma castCounts_eq_none {l : List PointN}
    (h : ∃ p ∈ l, p.member_count = (none : Option ℚ)) : castCounts l = none := by
  induction l with
  | nil =>
    rcases h with ⟨p, hp, _⟩
    simp at hp
  | cons q qs ih =>
    rcases h with ⟨p, hp, hpmc⟩
    rcases List.mem_cons.mp hp with rfl | hmem
    · simp only [castCounts]
      rw [hpmc]
    · simp only [castCounts]
      cases hq : q.member_count with
      | none => rfl
      | some c =>
        rw [ih ⟨p, hmem, hpmc⟩]
        rfl

/-- C8 counterexample: the log [(day 0, 100), (day 1, missing), (day 2, 130)]
contains one missing-count row; the pipeline does not drop it and continue —
the `astype(int)` conversion fails on the coerced NaN and the run produces no
output at all, while the same log without the malformed row yields a full
3-point reconstruction.  The failure is thus caused by the malformed row, and
the claim that the exclusion does not abort the run is false. -/
theorem C8_missing_count_counterexample :
    data_dfN [((0 : ℤ), some (100 : ℤ)), (1440, none), (2880, some 130)] = none ∧
    data_dfN [((0 : ℤ), some (100 : ℤ)), (2880, some 130)] =
      some [⟨0, 100, false⟩, ⟨1440, 115, true⟩, ⟨2880, 130, false⟩] := by
  constructor
  · rfl
  · norm_num [data_dfN, df_combinedN, df_originalN, sortByTimestampN, tsLeN,
      df_purely_interpolated_pointsN, numDaysN, minDayN, maxDayN, dayListN, dayOf, dayLen,
      backbonePointN, isObservedN, df_resampledN, interpAt, dayMeanN, presentCountsOn,
      prevDefined, nextDefined, nextDefinedAux, midnight, castCounts, roundHalfEven, qfloor,
      List.range_succ, min_def, max_def, List.filterMap_cons, List.filterMap_nil,
      Option.some_bind, Option.none_bind, List.sum_cons, List.sum_nil]

/-- C8 amended: a missing count never reaches the log in the repository's own
flow — insert_member_count refuses to store it (and stores present counts) —
and inside the pipeline a coerced missing count is skipped by the daily means
used for interpolation rather than treated as zero; but if a missing-count
row does appear in the loaded data, the run aborts at the integer-conversion
step (dashboard.py line 80) and produces no output, instead of excluding the
row and continuing. -/
theorem C8_missing_count_amended (log : List ℤ) (c : ℤ) (rows : List RowN)
    (hbad : ∃ r ∈ rows, r.2 = (none : Option ℤ)) :
    insert_member_count log none = (log, false) ∧
    insert_member_count log (some c) = (log ++ [c], true) ∧
    dayMeanN [((0 : ℤ), some (100 : ℤ)), (10, none)] 0 = some 100 ∧
    data_dfN rows = none := by
  have hne : rows.isEmpty = false := by
    rcases hbad with ⟨r, hr, _⟩
    cases rows with
    | nil => simp at hr
    | cons a as => rfl
  refine ⟨rfl, rfl, ?_, ?_⟩
  · norm_num [dayMeanN, presentCountsOn, dayOf, dayLen, List.filterMap_cons,
      List.filterMap_nil, Option.some_bind, Option.none_bind, List.sum_cons, List.sum_nil]
  · unfold data_dfN
    rw [hne]
    simp only [Bool.false_eq_true, if_false]
    apply castCounts_eq_none
    rcases hbad with ⟨r, hr, hrnone⟩
    refine ⟨⟨r.1, none, false⟩, ?_, rfl⟩
    unfold df_combinedN
    rw [mem_sortByTimestampN]
    apply List.mem_append_left
    unfold df_originalN
    rw [mem_sortByTimestampN]
    exact List.mem_map.mpr ⟨r, hr, by simp [hrnone]⟩

/-- Witness for the amended C8 at a concrete log with one missing count. -/
theorem C8_missing_count_amended_witness :
    data_dfN [((0 : ℤ), some (1 : ℤ)), (720, none)] = none :=
  (C8_missing_count_amended [] 0 [((0 : ℤ), some (1 : ℤ)), (720, none)]
    ⟨(720, none), by simp, rfl⟩).2.2.2


/-! ### Interpolation totality and structure of the combined series -/

lemma isEmpty_false_of_ne {α : Type} {l : List α} (h : l ≠ []) : l.isEmpty = false := by
  cases l with
  | nil => exact absurd rfl h
  | cons a as => rfl

lemma data_df_eq_of_ne {rows : List Row} (h : rows ≠ []) :
    data_df rows =
      (sortByTimestamp (df_original rows ++ df_purely_interpolated_points rows)).map
        roundCount := by
  unfold data_df
  rw [isEmpty_false_of_ne h]
  rfl

lemma ne_nil_of_mem_data_df {rows : List Row} {p : Point} (hp : p ∈ data_df rows) :
    rows ≠ [] := by
  intro hc
  subst hc
  simp [data_df] at hp

lemma df_resampled_get {rows : List Row} {k : ℕ} (hk : k < numDays rows) :
    (df_resampled rows).get? k = some (dayMean rows (minDay rows + (k : ℤ))) := by
  unfold df_resampled
  rw [List.get?_map, List.get?_range hk]
  rfl

lemma df_resampled_length (rows : List Row) :
    (df_resampled rows).length = numDays rows := by
  simp [df_resampled]

lemma observedOn_isEmpty_false {rows : List Row} {d : ℤ} (h : isObserved rows d = true) :
    (observedOn rows d).isEmpty = false := by
  rcases List.any_eq_true.mp h with ⟨r, hr, hrd⟩
  have hmem : r ∈ observedOn rows d := List.mem_filter.mpr ⟨hr, hrd⟩
  cases hobs : observedOn rows d with
  | nil => rw [hobs] at hmem; simp at hmem
  | cons a as => rfl

lemma dayMean_some_of_observed {rows : List Row} {d : ℤ}
    (h : isObserved rows d = true) : ∃ m, dayMean rows d = some m := by
  have hne := observedOn_isEmpty_false h
  unfold dayMean
  simp only [hne, Bool.false_eq_true, if_false]
  exact ⟨_, rfl⟩

lemma isObserved_minDay {rows : List Row} (h : rows ≠ []) :
    isObserved rows (minDay rows) = true := by
  rcases minDay_attained h with ⟨r, hr, hd⟩
  unfold isObserved
  rw [List.any_eq_true]
  exact ⟨r, hr, by simp [hd]⟩

lemma numDays_pos {rows : List Row} (h : rows ≠ []) : 0 < numDays rows := by
  have := minDay_le_maxDay h
  unfold numDays
  omega

lemma prevDefined_isSome {v : List (Option ℚ)} {x : ℚ}
    (h0 : v.get? 0 = some (some x)) : ∀ i, (prevDefined v i).isSome = true := by
  intro i
  induction i with
  | zero =>
    unfold prevDefined
    rw [h0]
    rfl
  | succ n ih =>
    unfold prevDefined
    rcases hv : v.get? (n + 1) with _ | o
    · exact ih
    · rcases o with _ | y
      · exact ih
      · rfl

lemma interpAt_isSome {v : List (Option ℚ)} {x : ℚ} (h0 : v.get? 0 = some (some x))
    {i : ℕ} (hi : i < v.length) : ∃ w, interpAt v i = some w := by
  unfold interpAt
  rcases hv : v.get? i with _ | o
  · exact absurd (List.get?_eq_none.mp hv) (by omega)
  · rcases o with _ | y
    · have hp := prevDefined_isSome h0 i
      rcases hps : prevDefined v i with _ | jx
      · rw [hps] at hp
        simp at hp
      · rcases jx with ⟨j, vj⟩
        rcases hns : nextDefined v i with _ | kx
        · exact ⟨vj, rfl⟩
        · rcases kx with ⟨k, vk⟩
          exact ⟨_, rfl⟩
    · exact ⟨y, rfl⟩

lemma backbonePoint_isSome {rows : List Row} {k : ℕ} (hne : rows ≠ [])
    (hk : k < numDays rows) (hobs : isObserved rows (minDay rows + (k : ℤ)) = false) :
    ∃ q, backbonePoint rows k = some q := by
  rcases dayMean_some_of_observed (isObserved_minDay hne) with ⟨m, hm⟩
  have h0 : (df_resampled rows).get? 0 = some (some m) := by
    rw [df_resampled_get (numDays_pos hne)]
    simp [hm]
  have hlen : k < (df_resampled rows).length := by
    rw [df_resampled_length]
    exact hk
  rcases interpAt_isSome h0 hlen with ⟨w, hw⟩
  refine ⟨⟨midnight (minDay rows + (k : ℤ)), w, true⟩, ?_⟩
  unfold backbonePoint
  simp only [hobs, Bool.false_eq_true, if_false]
  unfold backboneVal
  rw [hw]
  rfl

/-! ### Counting points per day -/

lemma countP_filterMap {α β : Type} (f : α → Option β) (p : β → Bool) :
    ∀ l : List α,
      (l.filterMap f).countP p = l.countP (fun a => ((f a).map p).getD false) := by
  intro l
  induction l with
  | nil => rfl
  | cons a as ih =>
    cases hfa : f a with
    | none => simp [List.filterMap_cons, hfa, ih, List.countP_cons]
    | some b => simp [List.filterMap_cons, hfa, List.countP_cons, ih]

lemma countP_eq_one_of_nodup {α : Type} {l : List α} (hnd : l.Nodup) {g : α → Bool}
    (k0 : α) (hk0 : k0 ∈ l) (hg : ∀ k ∈ l, g k = true ↔ k = k0) : l.countP g = 1 := by
  rw [List.countP_eq_length_filter]
  have hmem : k0 ∈ l.filter g := List.mem_filter.mpr ⟨hk0, (hg k0 hk0).mpr rfl⟩
  have hall : ∀ x ∈ l.filter g, x = k0 := by
    intro x hx
    rcases List.mem_filter.mp hx with ⟨hxl, hxg⟩
    exact (hg x hxl).mp hxg
  have hle : (l.filter g).length ≤ 1 :=
    nodup_all_eq_length_le_one (hnd.filter g) hall
  have hge : 0 < (l.filter g).length := List.length_pos.mpr (by
    intro hc
    rw [hc] at hmem
    simp at hmem)
  omega

lemma countP_day_data_df (rows : List Row) (d : ℤ) :
    (data_df rows).countP (fun p => decide (dayOf p.timestamp = d)) =
      (df_original rows).countP (fun p => decide (dayOf p.timestamp = d)) +
        (df_purely_interpolated_points rows).countP
          (fun p => decide (dayOf p.timestamp = d)) := by
  by_cases h : rows = []
  · subst h
    rfl
  · rw [data_df_eq_of_ne h, List.countP_map]
    have hfun : ((fun p => decide (dayOf p.timestamp = d)) ∘ roundCount) =
        (fun p : Point => decide (dayOf p.timestamp = d)) := rfl
    rw [hfun,
      (perm_sortByTimestamp (df_original rows ++ df_purely_interpolated_points rows)).countP_eq,
      List.countP_append]

lemma countP_day_orig_zero {rows : List Row} {d : ℤ}
    (hobs : isObserved rows d = false) :
    (df_original rows).countP (fun p => decide (dayOf p.timestamp = d)) = 0 := by
  rw [List.countP_eq_zero]
  intro p hp
  rcases df_original_mem hp with ⟨r, hr, hpr⟩
  subst hpr
  simp only [decide_eq_true_eq]
  intro hd
  have : isObserved rows d = true := List.any_eq_true.mpr ⟨r, hr, by simp [hd]⟩
  rw [this] at hobs
  cases hobs

lemma numDays_spec (rows : List Row) :
    numDays rows = (maxDay rows - minDay rows + 1).toNat := rfl

lemma countP_day_synth_one {rows : List Row} (hne : rows ≠ []) {d : ℤ}
    (hmin : minDay rows ≤ d) (hmax : d ≤ maxDay rows)
    (hobs : isObserved rows d = false) :
    (df_purely_interpolated_points rows).countP
      (fun p => decide (dayOf p.timestamp = d)) = 1 := by
  unfold df_purely_interpolated_points
  rw [countP_filterMap]
  have hk0 : (d - minDay rows).toNat < numDays rows := by
    rw [numDays_spec]
    omega
  apply countP_eq_one_of_nodup (List.nodup_range _) ((d - minDay rows).toNat)
  · rw [List.mem_range]
    exact hk0
  · intro k hk
    rw [List.mem_range] at hk
    constructor
    · intro hg
      cases hbp : backbonePoint rows k with
      | none =>
        rw [hbp] at hg
        simp at hg
      | some q =>
        rw [hbp] at hg
        simp only [Option.map_some', Option.getD_some, decide_eq_true_eq] at hg
        rcases backbonePoint_some hbp with ⟨_, hts, _, _⟩
        rw [hts, dayOf_midnight] at hg
        omega
    · rintro rfl
      have heq : minDay rows + ((d - minDay rows).toNat : ℤ) = d := by omega
      have hobs0 : isObserved rows (minDay rows + ((d - minDay rows).toNat : ℤ)) = false := by
        rw [heq]
        exact hobs
      rcases backbonePoint_isSome hne hk0 hobs0 with ⟨q, hq⟩
      rw [hq]
      rcases backbonePoint_some hq with ⟨_, hts, _, _⟩
      simp only [Option.map_some', Option.getD_some, decide_eq_true_eq]
      rw [hts, dayOf_midnight]
      exact heq

lemma data_df_day_bounds {rows : List Row} {p : Point} (hp : p ∈ data_df rows) :
    minDay rows ≤ dayOf p.timestamp ∧ dayOf p.timestamp ≤ maxDay rows := by
  rcases data_df_mem_struct hp with ⟨q, hq | hq, hpq⟩
  · rcases df_original_mem hq with ⟨r, hr, hqr⟩
    subst hqr
    rw [hpq]
    exact ⟨minDay_le hr, le_maxDay hr⟩
  · rcases purely_interpolated_mem hq with ⟨k, hkmem, hbp⟩
    rw [List.mem_range] at hkmem
    rcases backbonePoint_some hbp with ⟨_, hts, _, _⟩
    rw [hpq]
    have hday : dayOf q.timestamp = minDay rows + (k : ℤ) := by
      rw [hts, dayOf_midnight]
    rw [roundCount_timestamp, hday]
    have hnum := numDays_spec rows
    constructor
    · omega
    · omega

lemma mem_data_df_of_row {rows : List Row} {r : Row} (hr : r ∈ rows) :
    (⟨r.1, (r.2 : ℚ), false⟩ : Point) ∈ data_df rows := by
  have hne : rows ≠ [] := by
    intro hc
    subst hc
    simp at hr
  rw [data_df_eq_of_ne hne]
  rw [← roundCount_intCast r.1 r.2 false]
  apply List.mem_map_of_mem
  rw [mem_sortByTimestamp]
  apply List.mem_append_left
  unfold df_original
  rw [mem_sortByTimestamp]
  exact List.mem_map.mpr ⟨r, hr, rfl⟩

lemma interpolated_mem_from_synth {rows : List Row} {p : Point}
    (hp : p ∈ data_df rows) (hflag : p.is_interpolated = true) :
    ∃ k < numDays rows, ∃ q, backbonePoint rows k = some q ∧ p = roundCount q := by
  rcases data_df_mem_struct hp with ⟨q, hq | hq, hpq⟩
  · rcases df_original_mem hq with ⟨r, hr, hqr⟩
    subst hqr
    rw [hpq] at hflag
    simp [roundCount] at hflag
  · rcases purely_interpolated_mem hq with ⟨k, hkmem, hbp⟩
    rw [List.mem_range] at hkmem
    exact ⟨k, hkmem, q, hbp, hpq⟩

lemma data_df_unobserved_flag {rows : List Row} {p : Point} {d : ℤ}
    (hp : p ∈ data_df rows) (hobs : isObserved rows d = false)
    (hd : dayOf p.timestamp = d) : p.is_interpolated = true := by
  rcases data_df_mem_struct hp with ⟨q, hq | hq, hpq⟩
  · rcases df_original_mem hq with ⟨r, hr, hqr⟩
    subst hqr
    rw [hpq, roundCount_timestamp] at hd
    have : isObserved rows d = true := List.any_eq_true.mpr ⟨r, hr, by simp [hd]⟩
    rw [this] at hobs
    cases hobs
  · rcases purely_interpolated_mem hq with ⟨k, _, hbp⟩
    rcases backbonePoint_some hbp with ⟨_, _, hflag, _⟩
    rw [hpq, roundCount_flag, hflag]

/-! ### Claim C2: coverage of the reconstructed series -/

/-- C2: for a non-empty observation log, every observed day contributes a
non-interpolated point; every day with zero observations between the first
and last observed day contributes exactly one synthesized point, tagged
interpolated; and no point falls on a day before the first or after the last
observed day. -/
theorem C2_reconstruction_coverage (rows : List Row) (h : rows ≠ []) :
    (∀ r ∈ rows, ∃ p ∈ data_df rows,
      dayOf p.timestamp = dayOf r.1 ∧ p.is_interpolated = false) ∧
    (∀ d : ℤ, minDay rows ≤ d → d ≤ maxDay rows → isObserved rows d = false →
      (data_df rows).countP (fun p => decide (dayOf p.timestamp = d)) = 1 ∧
      ∀ p ∈ data_df rows, dayOf p.timestamp = d → p.is_interpolated = true) ∧
    (∀ p ∈ data_df rows,
      minDay rows ≤ dayOf p.timestamp ∧ dayOf p.timestamp ≤ maxDay rows) := by
  refine ⟨?_, ?_, fun p hp => data_df_day_bounds hp⟩
  · intro r hr
    exact ⟨⟨r.1, (r.2 : ℚ), false⟩, mem_data_df_of_row hr, rfl, rfl⟩
  · intro d hmin hmax hobs
    refine ⟨?_, fun p hp hd => data_df_unobserved_flag hp hobs hd⟩
    rw [countP_day_data_df, countP_day_orig_zero hobs,
      countP_day_synth_one h hmin hmax hobs]

/-- Witness for C2: the log [(day 0, 100), (day 2, 120)] gets exactly one
point on the unobserved interior day 1. -/
theorem C2_reconstruction_coverage_witness :
    (data_df [((0 : ℤ), (100 : ℤ)), (2880, 120)]).countP
      (fun p => decide (dayOf p.timestamp = 1)) = 1 :=
  ((C2_reconstruction_coverage [((0 : ℤ), (100 : ℤ)), (2880, 120)] (by decide)).2.1 1
    (by decide) (by decide) (by decide)).1

/-! ### Claim C10: synthesized points sit at midnight, series is sorted -/

lemma sorted_data_df (rows : List Row) : List.Sorted tsLe (data_df rows) := by
  unfold data_df
  by_cases h : rows.isEmpty
  · rw [if_pos h]
    exact List.sorted_nil
  · rw [if_neg h]
    have hs := sorted_sortByTimestamp (df_original rows ++ df_purely_interpolated_points rows)
    unfold List.Sorted at hs ⊢
    rw [List.pairwise_map]
    exact hs

/-- The fully evaluated pipeline on the two-day example log. -/
lemma data_df_example2 :
    data_df [((0 : ℤ), (100 : ℤ)), (2880, 120)] =
      [⟨0, 100, false⟩, ⟨1440, 110, true⟩, ⟨2880, 120, false⟩] := by
  norm_num [data_df, df_original, sortByTimestamp, tsLe, df_purely_interpolated_points,
    numDays, minDay, maxDay, dayList, dayOf, dayLen, backbonePoint, isObserved, backboneVal,
    df_resampled, interpAt, dayMean, observedOn, prevDefined, nextDefined, nextDefinedAux,
    midnight, roundCount, roundHalfEven, qfloor, List.range_succ, min_def, max_def]

/-- C10: every synthesized point carries a timestamp at exactly midnight of
its calendar day and is the only point of the series on that day; original
observations keep their recorded instants and counts; and the combined
series is sorted ascending by timestamp. -/
theorem C10_synth_points (rows : List Row) :
    (∀ p ∈ data_df rows, p.is_interpolated = true →
      p.timestamp = midnight (dayOf p.timestamp) ∧
      (data_df rows).countP
        (fun q => decide (dayOf q.timestamp = dayOf p.timestamp)) = 1) ∧
    (∀ p ∈ data_df rows, p.is_interpolated = false →
      ∃ r ∈ rows, p.timestamp = r.1 ∧ p.member_count = (r.2 : ℚ)) ∧
    List.Sorted tsLe (data_df rows) := by
  refine ⟨?_, ?_, sorted_data_df rows⟩
  · intro p hp hflag
    have hne := ne_nil_of_mem_data_df hp
    rcases interpolated_mem_from_synth hp hflag with ⟨k, hk, q, hbp, hpq⟩
    rcases backbonePoint_some hbp with ⟨hobs, hts, _, _⟩
    have hday : dayOf p.timestamp = minDay rows + (k : ℤ) := by
      rw [hpq, roundCount_timestamp, hts, dayOf_midnight]
    have hnum := numDays_spec rows
    constructor
    · rw [hday, hpq, roundCount_timestamp, hts]
    · rw [hday, countP_day_data_df, countP_day_orig_zero hobs,
        countP_day_synth_one hne (by omega) (by omega) hobs]
  · intro p hp hflag
    rcases data_df_mem_struct hp with ⟨q, hq | hq, hpq⟩
    · rcases df_original_mem hq with ⟨r, hr, hqr⟩
      subst hqr
      refine ⟨r, hr, ?_, ?_⟩
      · rw [hpq, roundCount_timestamp]
      · rw [hpq]
        simp [roundCount, roundHalfEven_intCast]
    · rcases purely_interpolated_mem hq with ⟨k, _, hbp⟩
      rcases backbonePoint_some hbp with ⟨_, _, hfl, _⟩
      rw [hpq, roundCount_flag, hfl] at hflag
      exact Bool.noConfusion hflag

/-- Witness for C10: on the two-day example log, the synthesized day-1 point
sits at midnight of day 1 and is alone on its day. -/
theorem C10_synth_points_witness :
    (⟨1440, (110 : ℚ), true⟩ : Point).timestamp =
        midnight (dayOf (⟨1440, (110 : ℚ), true⟩ : Point).timestamp) ∧
      (data_df [((0 : ℤ), (100 : ℤ)), (2880, 120)]).countP
        (fun q => decide (dayOf q.timestamp =
          dayOf (⟨1440, (110 : ℚ), true⟩ : Point).timestamp)) = 1 :=
  (C10_synth_points [((0 : ℤ), (100 : ℤ)), (2880, 120)]).1 ⟨1440, 110, true⟩
    (by rw [data_df_example2]; simp) rfl

/-! ### Claim C3: backbone means and linear gap interpolation -/

lemma observed_of_dayMean_some {rows : List Row} {d : ℤ} {m : ℚ}
    (h : dayMean rows d = some m) : ∃ r ∈ rows, dayOf r.1 = d := by
  unfold dayMean at h
  cases hobs : observedOn rows d with
  | nil =>
    rw [hobs] at h
    simp at h
  | cons a as =>
    have ha : a ∈ observedOn rows d := by
      rw [hobs]
      exact List.mem_cons_self a as
    rcases List.mem_filter.mp ha with ⟨hmem, hday⟩
    exact ⟨a, hmem, by simpa using hday⟩

lemma prevDefined_eq_of {v : List (Option ℚ)} {j : ℕ} {x : ℚ}
    (hj : v.get? j = some (some x)) :
    ∀ i, j ≤ i → (∀ m, j < m → m ≤ i → v.get? m = some none) →
      prevDefined v i = some (j, x) := by
  intro i
  induction i with
  | zero =>
    intro hji _
    have : j = 0 := Nat.le_zero.mp hji
    subst this
    unfold prevDefined
    rw [hj]
  | succ n ih =>
    intro hji hbetween
    by_cases hcase : j = n + 1
    · subst hcase
      unfold prevDefined
      rw [hj]
    · have hjn : j ≤ n := by omega
      have hmid : v.get? (n + 1) = some none := hbetween (n + 1) (by omega) (by omega)
      unfold prevDefined
      rw [hmid]
      exact ih hjn (fun m hm1 hm2 => hbetween m hm1 (by omega))

lemma nextDefinedAux_eq_of {v : List (Option ℚ)} {k : ℕ} {x : ℚ}
    (hk : v.get? k = some (some x)) :
    ∀ fuel i, i ≤ k → k - i < fuel → (∀ m, i ≤ m → m < k → v.get? m = some none) →
      nextDefinedAux v i fuel = some (k, x) := by
  intro fuel
  induction fuel with
  | zero =>
    intro i _ hfuel _
    omega
  | succ f ih =>
    intro i hik hfuel hbetween
    by_cases hcase : i = k
    · subst hcase
      unfold nextDefinedAux
      rw [hk]
    · have hmid : v.get? i = some none := hbetween i le_rfl (by omega)
      unfold nextDefinedAux
      rw [hmid]
      exact ih (i + 1) (by omega) (by omega) (fun m hm1 hm2 => hbetween m (by omega) hm2)

lemma nextDefined_eq_of {v : List (Option ℚ)} {k : ℕ} {x : ℚ} {i : ℕ}
    (hk : v.get? k = some (some x)) (hik : i ≤ k)
    (hbetween : ∀ m, i ≤ m → m < k → v.get? m = some none) :
    nextDefined v i = some (k, x) := by
  have hklen : k < v.length := by
    by_contra hc
    rw [List.get?_eq_none.mpr (by omega)] at hk
    cases hk
  exact nextDefinedAux_eq_of hk (v.length - i) i hik (by omega) hbetween

/-- C3: the daily backbone keeps the arithmetic mean of each observed day's
counts, and each interior gap day is filled by linear interpolation over
elapsed calendar days between the two nearest observed neighbor days; in
particular the log [(day 0, 100), (day 2, 120)] reconstructs to exactly
three points with the day-1 point synthesized with count 110. -/
theorem C3_backbone_interpolation (rows : List Row) (d0 d1 d : ℤ) (v0 v1 : ℚ)
    (h0 : dayMean rows d0 = some v0) (h1 : dayMean rows d1 = some v1)
    (hlow : d0 < d) (hhigh : d < d1)
    (hgap : ∀ x : ℤ, d0 < x → x < d1 → dayMean rows x = none) :
    backboneVal rows ((d - minDay rows).toNat) =
      some (v0 + (v1 - v0) * (((d : ℚ)) - ((d0 : ℚ))) / (((d1 : ℚ)) - ((d0 : ℚ)))) ∧
    (∀ dobs : ℤ, (observedOn rows dobs).isEmpty = false →
      backboneVal rows ((dobs - minDay rows).toNat) =
        some (((observedOn rows dobs).map (fun r => (r.2 : ℚ))).sum /
          ((observedOn rows dobs).length : ℚ))) ∧
    data_df [((0 : ℤ), (100 : ℤ)), (2880, 120)] =
      [⟨0, 100, false⟩, ⟨1440, 110, true⟩, ⟨2880, 120, false⟩] := by
  have hnum := numDays_spec rows
  have hmean_get : ∀ dx : ℤ, minDay rows ≤ dx → dx ≤ maxDay rows →
      (df_resampled rows).get? ((dx - minDay rows).toNat) = some (dayMean rows dx) := by
    intro dx hxmin hxmax
    have hk : (dx - minDay rows).toNat < numDays rows := by omega
    rw [df_resampled_get hk]
    have : minDay rows + (((dx - minDay rows).toNat : ℕ) : ℤ) = dx := by omega
    rw [this]
  have hobs_bounds : ∀ (dx : ℤ) (m : ℚ), dayMean rows dx = some m →
      minDay rows ≤ dx ∧ dx ≤ maxDay rows := by
    intro dx m hm
    rcases observed_of_dayMean_some hm with ⟨r, hr, hrd⟩
    exact ⟨hrd ▸ minDay_le hr, hrd ▸ le_maxDay hr⟩
  refine ⟨?_, ?_, data_df_example2⟩
  · rcases hobs_bounds d0 v0 h0 with ⟨hmin0, hmax0⟩
    rcases hobs_bounds d1 v1 h1 with ⟨hmin1, hmax1⟩
    have hmind : minDay rows ≤ d := by omega
    have hmaxd : d ≤ maxDay rows := by omega
    have hj : (df_resampled rows).get? ((d0 - minDay rows).toNat) = some (some v0) := by
      rw [hmean_get d0 hmin0 hmax0, h0]
    have hkk : (df_resampled rows).get? ((d1 - minDay rows).toNat) = some (some v1) := by
      rw [hmean_get d1 hmin1 (by omega), h1]
    have hi : (df_resampled rows).get? ((d - minDay rows).toNat) = some none := by
      rw [hmean_get d hmind hmaxd, hgap d hlow hhigh]
    have hprev : prevDefined (df_resampled rows) ((d - minDay rows).toNat) =
        some ((d0 - minDay rows).toNat, v0) := by
      apply prevDefined_eq_of hj _ (by omega)
      intro m hm1 hm2
      have hmlt : (m : ℤ) + minDay rows < d1 := by omega
      have hmgt : d0 < (m : ℤ) + minDay rows := by omega
      have hmmax : (m : ℤ) + minDay rows ≤ maxDay rows := by omega
      have hmmin : minDay rows ≤ (m : ℤ) + minDay rows := by omega
      have hm' : m = (((m : ℤ) + minDay rows) - minDay rows).toNat := by omega
      rw [hm', hmean_get _ hmmin hmmax, hgap _ hmgt hmlt]
    have hnext : nextDefined (df_resampled rows) ((d - minDay rows).toNat) =
        some ((d1 - minDay rows).toNat, v1) := by
      apply nextDefined_eq_of hkk (by omega)
      intro m hm1 hm2
      have hmlt : (m : ℤ) + minDay rows < d1 := by omega
      have hmgt : d0 < (m : ℤ) + minDay rows := by omega
      have hmmax : (m : ℤ) + minDay rows ≤ maxDay rows := by omega
      have hmmin : minDay rows ≤ (m : ℤ) + minDay rows := by omega
      have hm' : m = (((m : ℤ) + minDay rows) - minDay rows).toNat := by omega
      rw [hm', hmean_get _ hmmin hmmax, hgap _ hmgt hmlt]
    have ci : (((d - minDay rows).toNat : ℕ) : ℚ) = (d : ℚ) - (minDay rows : ℚ) := by
      have h' : (((d - minDay rows).toNat : ℕ) : ℤ) = d - minDay rows := by omega
      exact_mod_cast congrArg (fun z : ℤ => (z : ℚ)) h'
    have cj : (((d0 - minDay rows).toNat : ℕ) : ℚ) = (d0 : ℚ) - (minDay rows : ℚ) := by
      have h' : (((d0 - minDay rows).toNat : ℕ) : ℤ) = d0 - minDay rows := by omega
      exact_mod_cast congrArg (fun z : ℤ => (z : ℚ)) h'
    have ck : (((d1 - minDay rows).toNat : ℕ) : ℚ) = (d1 : ℚ) - (minDay rows : ℚ) := by
      have h' : (((d1 - minDay rows).toNat : ℕ) : ℤ) = d1 - minDay rows := by omega
      exact_mod_cast congrArg (fun z : ℤ => (z : ℚ)) h'
    unfold backboneVal interpAt
    rw [hi, hprev, hnext]
    dsimp only
    rw [ci, cj, ck]
    ring_nf
  · intro dobs hne
    have hsome : dayMean rows dobs =
        some (((observedOn rows dobs).map (fun r => (r.2 : ℚ))).sum /
          ((observedOn rows dobs).length : ℚ)) := by
      unfold dayMean
      simp only [hne, Bool.false_eq_true, if_false]
    rcases hobs_bounds dobs _ hsome with ⟨hbmin, hbmax⟩
    unfold backboneVal interpAt
    rw [hmean_get dobs hbmin hbmax, hsome]

/-- Witness for C3: the gap formula at the concrete two-day log gives the
day-1 value 100 + 20·(1/2). -/
theorem C3_backbone_interpolation_witness :
    backboneVal [((0 : ℤ), (100 : ℤ)), (2880, 120)]
        ((1 - minDay [((0 : ℤ), (100 : ℤ)), (2880, 120)]).toNat) =
      some (100 + (120 - 100) * (((1 : ℤ) : ℚ) - ((0 : ℤ) : ℚ)) /
        (((2 : ℤ) : ℚ) - ((0 : ℤ) : ℚ))) :=
  (C3_backbone_interpolation [((0 : ℤ), (100 : ℤ)), (2880, 120)] 0 2 1 100 120
    (by norm_num [dayMean, observedOn, dayOf, dayLen])
    (by norm_num [dayMean, observedOn, dayOf, dayLen])
    (by norm_num) (by norm_num)
    (by
      intro x hx1 hx2
      have hx : x = 1 := by omega
      subst hx
      norm_num [dayMean, observedOn, dayOf, dayLen])).1

/-! ### Claim C4: closing-value fidelity -/

lemma mem_of_getLast?_eq {α : Type} : ∀ {l : List α} {a : α}, l.getLast? = some a → a ∈ l
  | [], _, h => by cases h
  | [x], a, h => by
      simp only [List.getLast?_singleton, Option.some.injEq] at h
      rw [← h]
      exact List.mem_singleton_self x
  | x :: y :: rest, a, h => by
      rw [List.getLast?_cons_cons] at h
      exact List.mem_cons_of_mem x (mem_of_getLast?_eq h)

lemma sorted_tsLe_getLast :
    ∀ {l : List Point}, List.Sorted tsLe l →
      ∀ {p q : Point}, p ∈ l → l.getLast? = some q → tsLe p q := by
  intro l
  induction l with
  | nil =>
    intro _ p q hp
    simp at hp
  | cons x rest ih =>
    intro hs p q hp hlast
    cases rest with
    | nil =>
      simp only [List.getLast?_singleton, Option.some.injEq] at hlast
      simp only [List.mem_singleton] at hp
      rw [hp, ← hlast]
      exact le_refl x.timestamp
    | cons y rest2 =>
      rw [List.getLast?_cons_cons] at hlast
      rcases List.mem_cons.mp hp with rfl | hmem
      · exact (List.sorted_cons.mp hs).1 q (mem_of_getLast?_eq hlast)
      · exact ih (List.sorted_cons.mp hs).2 hmem hlast

lemma mem_onDay {l : List Point} {d : ℤ} {p : Point} :
    p ∈ onDay l d ↔ p ∈ l ∧ dayOf p.timestamp = d := by
  unfold onDay
  simp [List.mem_filter]

lemma onDay_data_df (rows : List Row) (d : ℤ) (h : rows ≠ []) :
    onDay (data_df rows) d =
      (onDay (sortByTimestamp (df_original rows ++ df_purely_interpolated_points rows)) d).map
        roundCount := by
  rw [data_df_eq_of_ne h]
  unfold onDay
  rw [List.filter_map]
  rfl

lemma synth_not_on_observed {rows : List Row} {q : Point}
    (hq : q ∈ df_purely_interpolated_points rows) {d : ℤ}
    (hobs : isObserved rows d = true) : dayOf q.timestamp ≠ d := by
  rcases purely_interpolated_mem hq with ⟨k, _, hbp⟩
  rcases backbonePoint_some hbp with ⟨hko, hts, _, _⟩
  intro hc
  rw [hts, dayOf_midnight] at hc
  rw [hc, hobs] at hko
  cases hko

lemma orig_point_mem_sorted {rows : List Row} {r : Row} (hr : r ∈ rows) :
    (⟨r.1, (r.2 : ℚ), false⟩ : Point) ∈
      sortByTimestamp (df_original rows ++ df_purely_interpolated_points rows) := by
  rw [mem_sortByTimestamp]
  apply List.mem_append_left
  unfold df_original
  rw [mem_sortByTimestamp]
  exact List.mem_map.mpr ⟨r, hr, rfl⟩

/-- The evaluated daily summary on the scenario-C log: two same-day samples
100 and 110 on day 0, then 130 on day 1. -/
lemma summary_exampleC :
    daily_summary_agg (data_df [((600 : ℤ), (100 : ℤ)), (720, 110), (2040, 130)]) =
      [⟨0, 110, false, 0⟩, ⟨1, 130, false, 20⟩] := by
  norm_num [data_df, df_original, sortByTimestamp, tsLe, df_purely_interpolated_points,
    numDays, minDay, maxDay, dayList, dayOf, dayLen, backbonePoint, isObserved, backboneVal,
    df_resampled, interpAt, dayMean, observedOn, prevDefined, nextDefined, nextDefinedAux,
    midnight, roundCount, roundHalfEven, qfloor, daily_summary_agg, sortedDays, distinctDays,
    summariesGo, closeOn, interpOn, lastOnDay, onDay, intLe, List.range_succ, min_def, max_def]

/-- C4: for every observed day, the closing point used by the daily summary
(the chronologically last point of the day in the reconstructed series) is an
original observation of that day with maximal timestamp — never an
interpolated point and never the day's mean — and it carries that
observation's count; on the scenario-C log the day-0 summary closes at 110
and day 1 has net change 20. -/
theorem C4_closing_value (rows : List Row) (d : ℤ)
    (hobs : isObserved rows d = true) :
    (∃ p, lastOnDay (data_df rows) d = some p ∧ p.is_interpolated = false ∧
      ∃ r ∈ rows, dayOf r.1 = d ∧ p.timestamp = r.1 ∧ p.member_count = (r.2 : ℚ) ∧
        ∀ r' ∈ rows, dayOf r'.1 = d → r'.1 ≤ r.1) ∧
    daily_summary_agg (data_df [((600 : ℤ), (100 : ℤ)), (720, 110), (2040, 130)]) =
      [⟨0, 110, false, 0⟩, ⟨1, 130, false, 20⟩] := by
  refine ⟨?_, summary_exampleC⟩
  have hne : rows ≠ [] := by
    rcases List.any_eq_true.mp hobs with ⟨r, hr, _⟩
    intro hc
    subst hc
    simp at hr
  have hsorted : List.Sorted tsLe
      (sortByTimestamp (df_original rows ++ df_purely_interpolated_points rows)) :=
    sorted_sortByTimestamp _
  have hfs_sorted : List.Sorted tsLe
      (onDay (sortByTimestamp (df_original rows ++ df_purely_interpolated_points rows)) d) :=
    List.Pairwise.filter _ hsorted
  rcases List.any_eq_true.mp hobs with ⟨r0, hr0, hr0d⟩
  have hr0d' : dayOf r0.1 = d := of_decide_eq_true hr0d
  have hq0mem : (⟨r0.1, (r0.2 : ℚ), false⟩ : Point) ∈
      onDay (sortByTimestamp (df_original rows ++ df_purely_interpolated_points rows)) d :=
    mem_onDay.mpr ⟨orig_point_mem_sorted hr0, hr0d'⟩
  obtain ⟨q, hqlast⟩ : ∃ q,
      (onDay (sortByTimestamp (df_original rows ++ df_purely_interpolated_points rows))
        d).getLast? = some q := by
    rcases ho : (onDay (sortByTimestamp
        (df_original rows ++ df_purely_interpolated_points rows)) d).getLast? with _ | q
    · rw [List.getLast?_eq_none_iff] at ho
      rw [ho] at hq0mem
      simp at hq0mem
    · exact ⟨q, rfl⟩
  have hqmem := mem_of_getLast?_eq hqlast
  rcases mem_onDay.mp hqmem with ⟨hqs, hqd⟩
  have hqorig : q ∈ df_original rows := by
    rw [mem_sortByTimestamp] at hqs
    rcases List.mem_append.mp hqs with h | h
    · exact h
    · exact absurd hqd (synth_not_on_observed h hobs)
  rcases df_original_mem hqorig with ⟨r, hr, hqr⟩
  refine ⟨roundCount q, ?_, ?_, r, hr, ?_, ?_, ?_, ?_⟩
  · unfold lastOnDay
    rw [onDay_data_df rows d hne, List.getLast?_map, hqlast]
    rfl
  · rw [hqr]
    rfl
  · rw [hqr] at hqd
    exact hqd
  · rw [hqr]
    rfl
  · rw [hqr]
    simp [roundCount, roundHalfEven_intCast]
  · intro r' hr' hd'
    have hmem' : (⟨r'.1, (r'.2 : ℚ), false⟩ : Point) ∈
        onDay (sortByTimestamp (df_original rows ++ df_purely_interpolated_points rows)) d :=
      mem_onDay.mpr ⟨orig_point_mem_sorted hr', hd'⟩
    have hle := sorted_tsLe_getLast hfs_sorted hmem' hqlast
    have : q.timestamp = r.1 := by
      rw [hqr]
    rw [← this]
    exact hle

/-- Witness for C4 at the scenario-C log and its first day. -/
theorem C4_closing_value_witness :
    daily_summary_agg (data_df [((600 : ℤ), (100 : ℤ)), (720, 110), (2040, 130)]) =
      [⟨0, 110, false, 0⟩, ⟨1, 130, false, 20⟩] :=
  (C4_closing_value [((600 : ℤ), (100 : ℤ)), (720, 110), (2040, 130)] 0 (by decide)).2

/-! ### Claim C5: net change comes from the unfiltered series -/

lemma sortedDays_sorted (l : List Point) : List.Sorted intLe (sortedDays l) :=
  List.sorted_insertionSort intLe _

lemma sortedDays_nodup (l : List Point) : (sortedDays l).Nodup :=
  ((List.perm_insertionSort intLe _).nodup_iff).mpr (List.nodup_dedup _)

lemma mem_sortedDays {l : List Point} {d : ℤ} :
    d ∈ sortedDays l ↔ ∃ p ∈ l, dayOf p.timestamp = d := by
  unfold sortedDays
  rw [(List.perm_insertionSort intLe _).mem_iff]
  unfold distinctDays
  rw [List.mem_dedup, List.mem_map]

lemma consec_split :
    ∀ {l : List ℤ}, List.Sorted intLe l → l.Nodup →
      ∀ {d' d : ℤ}, d' ∈ l → d ∈ l → d' < d →
        (∀ x ∈ l, x < d → x ≤ d') →
        ∃ l₁ l₂, l = l₁ ++ d' :: d :: l₂ := by
  intro l
  induction l with
  | nil =>
    intro _ _ d' d hd' _ _ _
    simp at hd'
  | cons a rest ih =>
    intro hs hnd d' d hd' hd hlt hmax
    rcases List.sorted_cons.mp hs with ⟨hale, hrest⟩
    rcases List.nodup_cons.mp hnd with ⟨hanotin, hndrest⟩
    by_cases had' : a = d'
    · subst had'
      have hdrest : d ∈ rest := by
        rcases List.mem_cons.mp hd with h | h
        · omega
        · exact h
      cases rest with
      | nil => simp at hdrest
      | cons b rest2 =>
        by_cases hbd : b = d
        · subst hbd
          exact ⟨[], rest2, rfl⟩
        · exfalso
          have hb2 : d ∈ rest2 := by
            rcases List.mem_cons.mp hdrest with h | h
            · exact absurd h.symm hbd
            · exact h
          have hble : b ≤ d := (List.sorted_cons.mp hrest).1 d hb2
          have hab : a ≤ b := hale b (List.mem_cons_self b rest2)
          have hanb : a ≠ b := fun hc => hanotin (hc ▸ List.mem_cons_self b rest2)
          have hbled' : b ≤ a :=
            hmax b (List.mem_cons_of_mem a (List.mem_cons_self b rest2)) (by omega)
          omega
    · have hd'rest : d' ∈ rest := by
        rcases List.mem_cons.mp hd' with h | h
        · exact absurd h.symm had'
        · exact h
      have hdrest : d ∈ rest := by
        rcases List.mem_cons.mp hd with h | h
        · exfalso
          have : a ≤ d' := hale d' hd'rest
          omega
        · exact h
      rcases ih hrest hndrest hd'rest hdrest hlt
          (fun x hx hxd => hmax x (List.mem_cons_of_mem a hx) hxd) with ⟨l₁, l₂, hl⟩
      exact ⟨a :: l₁, l₂, by rw [hl, List.cons_append]⟩

lemma summariesGo_find {l : List Point} {d' d : ℤ} (hne : d' ≠ d) {l₂ : List ℤ} :
    ∀ (xs : List ℤ) (prev : ℚ), d ∉ xs →
      (summariesGo l prev (xs ++ d' :: d :: l₂)).find? (fun s => decide (s.date = d)) =
        some ⟨d, closeOn l d, interpOn l d,
          (roundHalfEven (closeOn l d - closeOn l d') : ℚ)⟩ := by
  intro xs
  induction xs with
  | nil =>
    intro prev _
    simp only [List.nil_append, summariesGo]
    rw [List.find?_cons_of_neg _ (by simpa using hne),
      List.find?_cons_of_pos _ (by simp)]
  | cons a as ih =>
    intro prev hdnot
    have hda : ¬(d = a) := fun hc => hdnot (hc ▸ List.mem_cons_self a as)
    simp only [List.cons_append, summariesGo]
    rw [List.find?_cons_of_neg _ (by simpa using fun hc => hda hc.symm)]
    exact ih (closeOn l a) (fun hc => hdnot (List.mem_cons_of_mem a hc))

lemma daily_summary_find {l : List Point} {d' d : ℤ}
    (hsplit : ∃ l₁ l₂, sortedDays l = l₁ ++ d' :: d :: l₂) :
    (daily_summary_agg l).find? (fun s => decide (s.date = d)) =
      some ⟨d, closeOn l d, interpOn l d,
        (roundHalfEven (closeOn l d - closeOn l d') : ℚ)⟩ := by
  rcases hsplit with ⟨l₁, l₂, hsp⟩
  have hnd : (l₁ ++ d' :: d :: l₂).Nodup := hsp ▸ sortedDays_nodup l
  rcases List.nodup_append.mp hnd with ⟨hnd1, hnd2, hdisj⟩
  have hne : d' ≠ d := by
    rcases List.nodup_cons.mp hnd2 with ⟨hnotin, _⟩
    exact fun hc => hnotin (hc ▸ List.mem_cons_self d l₂)
  have hdnotl₁ : d ∉ l₁ := fun hc =>
    hdisj hc (List.mem_cons_of_mem d' (List.mem_cons_self d l₂))
  unfold daily_summary_agg
  cases hl₁ : l₁ with
  | nil =>
    rw [hsp, hl₁, List.nil_append]
    rw [List.find?_cons_of_neg _ (by simpa using hne)]
    simp only [summariesGo]
    rw [List.find?_cons_of_pos _ (by simp)]
  | cons x xs =>
    rw [hsp, hl₁, List.cons_append]
    have hdx : ¬(d = x) := by
      intro hc
      exact hdnotl₁ (by rw [hl₁, hc]; exact List.mem_cons_self x xs)
    rw [List.find?_cons_of_neg _ (by simpa using fun hc => hdx hc.symm)]
    exact summariesGo_find hne xs (closeOn l x)
      (fun hc => hdnotl₁ (by rw [hl₁]; exact List.mem_cons_of_mem x hc))

lemma lastOnDay_isSome_of_present {l : List Point} {d : ℤ}
    (h : ∃ p ∈ l, dayOf p.timestamp = d) : ∃ q, lastOnDay l d = some q := by
  rcases h with ⟨p, hp, hd⟩
  unfold lastOnDay
  rcases ho : (onDay l d).getLast? with _ | q
  · rw [List.getLast?_eq_none_iff] at ho
    have hmem : p ∈ onDay l d := mem_onDay.mpr ⟨hp, hd⟩
    rw [ho] at hmem
    simp at hmem
  · exact ⟨q, rfl⟩

lemma closeOn_last {l : List Point} {x : ℤ} {p : Point}
    (hp : lastOnDay l x = some p) : closeOn l x = p.member_count := by
  unfold closeOn
  rw [hp]
  rfl

lemma lastOnDay_mem {l : List Point} {x : ℤ} {p : Point}
    (hp : lastOnDay l x = some p) : p ∈ l := by
  unfold lastOnDay at hp
  exact (mem_onDay.mp (mem_of_getLast?_eq hp)).1

lemma roundHalfEven_sub_int (a b : ℤ) :
    roundHalfEven ((a : ℚ) - (b : ℚ)) = a - b := by
  rw [← Int.cast_sub, roundHalfEven_intCast]

lemma mergeRow_timestamp (ss : List Summary) (p : Point) :
    (mergeRow ss p).timestamp = p.timestamp := by
  unfold mergeRow
  cases ss.find? (fun s => decide (s.date = dayOf p.timestamp)) <;> rfl

lemma mergeRow_net {ss : List Summary} {p : Point} {s : Summary}
    (h : ss.find? (fun t => decide (t.date = dayOf p.timestamp)) = some s) :
    (mergeRow ss p).net_daily_change = s.net_daily_change := by
  unfold mergeRow
  rw [h]

/-- C5: for a displayed day d whose previous present day in the full
reconstructed series is d', the net change attached to every displayed point
of day d equals last_count(d) minus last_count(d'), computed from the
unfiltered series, for every configured range — so the previous day may fall
outside the display window and applying a range filter never changes any
day's net change. -/
theorem C5_net_change_unfiltered (rows : List Row) (d' d : ℤ)
    (hd'p : ∃ p ∈ data_df rows, dayOf p.timestamp = d')
    (hdp : ∃ p ∈ data_df rows, dayOf p.timestamp = d)
    (hlt : d' < d)
    (hprev : ∀ d'' : ℤ, (∃ p ∈ data_df rows, dayOf p.timestamp = d'') → d'' < d → d'' ≤ d') :
    ∃ pd pd', lastOnDay (data_df rows) d = some pd ∧
      lastOnDay (data_df rows) d' = some pd' ∧
      netOfDay (data_df rows) d = some (pd.member_count - pd'.member_count) ∧
      ∀ s e : ℤ, ∀ orow ∈ outputRows rows s e, dayOf orow.timestamp = d →
        orow.net_daily_change = pd.member_count - pd'.member_count := by
  rcases lastOnDay_isSome_of_present hdp with ⟨pd, hpd⟩
  rcases lastOnDay_isSome_of_present hd'p with ⟨pd', hpd'⟩
  have hcd := closeOn_last hpd
  have hcd' := closeOn_last hpd'
  rcases data_df_isIntValued (lastOnDay_mem hpd) with ⟨nd, hnd⟩
  rcases data_df_isIntValued (lastOnDay_mem hpd') with ⟨nd', hnd'⟩
  have hsplit := consec_split (sortedDays_sorted (data_df rows))
    (sortedDays_nodup (data_df rows)) (mem_sortedDays.mpr hd'p) (mem_sortedDays.mpr hdp)
    hlt (fun x hx hxlt => hprev x (mem_sortedDays.mp hx) hxlt)
  have hfind := daily_summary_find hsplit
  have hval : (↑(roundHalfEven (closeOn (data_df rows) d - closeOn (data_df rows) d')) : ℚ) =
      pd.member_count - pd'.member_count := by
    rw [hcd, hcd', hnd, hnd', roundHalfEven_sub_int]
    push_cast
    ring
  refine ⟨pd, pd', hpd, hpd', ?_, ?_⟩
  · unfold netOfDay
    rw [hfind]
    simp only [Option.map_some']
    rw [hval]
  · intro s e orow ho hod
    rcases List.mem_map.mp ho with ⟨p, hp, hpo⟩
    have hts : orow.timestamp = p.timestamp := by
      rw [← hpo]
      exact mergeRow_timestamp _ p
    rw [hts] at hod
    have hfind' : (daily_summary_agg (data_df rows)).find?
        (fun t => decide (t.date = dayOf p.timestamp)) =
          some ⟨d, closeOn (data_df rows) d, interpOn (data_df rows) d,
            (roundHalfEven (closeOn (data_df rows) d - closeOn (data_df rows) d') : ℚ)⟩ := by
      rw [hod]
      exact hfind
    rw [← hpo, mergeRow_net hfind']
    exact hval

/-- The fully evaluated pipeline on the four-day example log with two
interpolated interior days. -/
lemma data_df_example4 :
    data_df [((0 : ℤ), (100 : ℤ)), (4320, 102)] =
      [⟨0, 100, false⟩, ⟨1440, 101, true⟩, ⟨2880, 101, true⟩, ⟨4320, 102, false⟩] := by
  norm_num [data_df, df_original, sortByTimestamp, tsLe, df_purely_interpolated_points,
    numDays, minDay, maxDay, dayList, dayOf, dayLen, backbonePoint, isObserved, backboneVal,
    df_resampled, interpAt, dayMean, observedOn, prevDefined, nextDefined, nextDefinedAux,
    midnight, roundCount, roundHalfEven, qfloor, List.range_succ, min_def, max_def]

/-- Witness for C5 on the four-day example log, at day 1 with previous
present day 0. -/
theorem C5_net_change_unfiltered_witness :
    ∃ pd pd', lastOnDay (data_df [((0 : ℤ), (100 : ℤ)), (4320, 102)]) 1 = some pd ∧
      lastOnDay (data_df [((0 : ℤ), (100 : ℤ)), (4320, 102)]) 0 = some pd' ∧
      netOfDay (data_df [((0 : ℤ), (100 : ℤ)), (4320, 102)]) 1 =
        some (pd.member_count - pd'.member_count) ∧
      ∀ s e : ℤ, ∀ orow ∈ outputRows [((0 : ℤ), (100 : ℤ)), (4320, 102)] s e,
        dayOf orow.timestamp = 1 →
        orow.net_daily_change = pd.member_count - pd'.member_count :=
  C5_net_change_unfiltered [((0 : ℤ), (100 : ℤ)), (4320, 102)] 0 1
    (⟨⟨0, (100 : ℚ), false⟩, by rw [data_df_example4]; simp, by decide⟩)
    (⟨⟨1440, (101 : ℚ), true⟩, by rw [data_df_example4]; simp, by decide⟩)
    (by norm_num)
    (by
      intro d'' hpres hltd
      rcases hpres with ⟨p, hp, hpd⟩
      rw [data_df_example4] at hp
      simp only [List.mem_cons, List.not_mem_nil, or_false] at hp
      rcases hp with rfl | rfl | rfl | rfl <;>
        (norm_num [dayOf, dayLen] at hpd; omega))

end GSMonitor
